import Mathlib

/-!
Verification of the `gcloudtracer` span-export adapter (recorder.go,
errors.go, logger.go, options file).

The Go code is shallowly embedded:
* Go `map[string]string` label sets become functions `String → Option String`
  (`LabelMap`) with explicit insert/erase.
* Go `opentracing.Tags` (a `map[string]interface{}`) becomes an association
  list `List (String × TagValue)`; a Go map has no duplicate keys, so lemmas
  that need it take a `Nodup` hypothesis on the keys.
* The Go iteration order over the `labelMap` rewrite table is unspecified;
  the table is embedded as the list `labelMapL` in source order, and
  order-independence is proved separately.
* `time.Time` values are embedded as nanosecond counts (`Int`); RFC3339
  rendering is not modelled since no claim concerns it — the trace record
  stores the instants themselves, with `EndTime = Start + Duration` as in
  the source.
* The bundler and the Cloud Trace client are external collaborators; in
  `RecordSpan` their responses are parameters (`addRes`, `uploadRes`) and
  the observable behaviour (records enqueued, upload calls, log lines) is
  collected in an `Effects` record.  `RecordSpan` in Go returns nothing, so
  the embedding is a total function with no error output.
-/

namespace GCloudTracer

/-! ### Label sets (Go `map[string]string`) -/

abbrev LabelMap : Type := String → Option String

def mapEmpty : LabelMap := fun _ => none

def mapInsert (m : LabelMap) (k v : String) : LabelMap :=
  fun q => if q = k then some v else m q

def mapErase (m : LabelMap) (k : String) : LabelMap :=
  fun q => if q = k then none else m q

/-! ### Tags (Go `opentracing.Tags = map[string]interface{}`) -/

/-- The dynamic type of a tag value, as discriminated by the Go code:
`int`, `string`, the `ext.SpanKindEnum` defined string type, or anything
else. -/
inductive TagValue where
  | int (n : Int)
  | str (s : String)
  | spanKind (s : String)
  | other
  deriving DecidableEq

abbrev Tags : Type := List (String × TagValue)

/-- One step of `convertTags`' loop body: the `switch v := v.(type)`
with cases `int` (rendered via `strconv.Itoa`) and `string`; every other
dynamic type falls through and is dropped. -/
def convertStep (m : LabelMap) (kv : String × TagValue) : LabelMap :=
  match kv.2 with
  | .int n => mapInsert m kv.1 (toString n)
  | .str s => mapInsert m kv.1 s
  | _ => m

/-- `convertTags` from recorder.go. -/
def convertTags (tags : Tags) : LabelMap :=
  tags.foldl convertStep mapEmpty

/-- The `labelMap` rewrite table from recorder.go, with the
`opentracing/ext` key constants expanded, in source order. -/
def labelMapL : List (String × String) :=
  [("peer.hostname", "trace.cloud.google.com/http/host"),
   ("http.method", "trace.cloud.google.com/http/method"),
   ("http.status_code", "trace.cloud.google.com/http/status_code"),
   ("http.url", "trace.cloud.google.com/http/url")]

/-- One iteration of `transposeLabels`' loop: if the well-known key `e.1`
is present, write its value under the destination key `e.2` and delete the
original. -/
def transposeStep (m : LabelMap) (e : String × String) : LabelMap :=
  match m e.1 with
  | some vv => mapErase (mapInsert m e.2 vv) e.1
  | none => m

/-- `transposeLabels` from recorder.go, iterating the table in source
order (Go map iteration order is unspecified; see the order-independence
theorem). -/
def transposeLabels (m : LabelMap) : LabelMap :=
  labelMapL.foldl transposeStep m

/-! ### Log records and `addLogs` -/

/-- One `opentracing.LogRecord` as seen by `addLogs`: the string form of
its timestamp (`l.Timestamp.String()`) and, per field, the key and the
`fmt.Sprint` rendering of the value. -/
structure LogRecord where
  timestamp : String
  fields : List (String × String)

/-- One iteration of `addLogs`' inner loop over `l.Fields`: append
`key=value`, then a space whenever `j != len(l.Fields)+1` — the condition
from the source, which never fails (`L` stands for `len(l.Fields)`). -/
def flattenStep (L : Nat) (buf : String) (jf : Nat × (String × String)) :
    String :=
  buf ++ jf.2.1 ++ "=" ++ jf.2.2 ++ (if jf.1 ≠ L + 1 then " " else "")

/-- The buffer built for one log record: the timestamp string, then the
field loop. -/
def flattenLog (l : LogRecord) : String :=
  (l.fields.enum).foldl (flattenStep l.fields.length) l.timestamp

/-- The label key `fmt.Sprintf("event_%d", i)`. -/
def eventKey (i : Nat) : String := "event_" ++ toString i

/-- One iteration of `addLogs`' outer loop:
`target[fmt.Sprintf("event_%d", i)] = buf`. -/
def addLogStep (m : LabelMap) (il : Nat × LogRecord) : LabelMap :=
  mapInsert m (eventKey il.1) (flattenLog il.2)

/-- `addLogs` from recorder.go. -/
def addLogs (target : LabelMap) (logs : List LogRecord) : LabelMap :=
  (logs.enum).foldl addLogStep target

/-! ### Span kind -/

/-- Go `tags[k]`: first (only, in a map) binding of `k`. -/
def tagsLookup (tags : Tags) (k : String) : Option TagValue :=
  (tags.find? (fun kv => kv.1 == k)).map Prod.snd

/-- `convertSpanKind` from recorder.go.  The Go comparison
`tags["span.kind"] == ext.SpanKindRPCServerEnum` is an interface equality:
it holds only when the dynamic type is `ext.SpanKindEnum`, hence the
`spanKind` constructor. -/
def convertSpanKind (tags : Tags) : String :=
  match tagsLookup tags "span.kind" with
  | some (.spanKind "server") => "RPC_SERVER"
  | some (.spanKind "client") => "RPC_CLIENT"
  | _ => "SPAN_KIND_UNSPECIFIED"

/-! ### Trace id (`fmt.Sprintf("%016x%016x", id, id)`) -/

/-- Lowercase hexadecimal digit, as produced by Go's `%x` verb. -/
def hexDigitChar (d : Nat) : Char :=
  if d < 10 then Char.ofNat (48 + d) else Char.ofNat (87 + d)

/-- Hex digits of `n`, most significant first; empty for 0. -/
def hexChars (n : Nat) : List Char :=
  if h : n = 0 then []
  else hexChars (n / 16) ++ [hexDigitChar (n % 16)]
termination_by n
decreasing_by exact Nat.div_lt_self (Nat.pos_of_ne_zero h) (by decide)

/-- Go's `%x` rendering of a nonnegative integer (`"0"` for zero). -/
def hexRepr (n : Nat) : String :=
  if n = 0 then "0" else String.mk (hexChars n)

/-- Zero padding to width 16, as in the `%016x` verb. -/
def pad016 (s : String) : String :=
  String.mk (List.replicate (16 - s.length) '0' ++ s.data)

/-- The trace id built in `RecordSpan`:
`fmt.Sprintf("%016x%016x", sp.Context.TraceID, sp.Context.TraceID)`. -/
def traceID (n : Nat) : String :=
  pad016 (hexRepr n) ++ pad016 (hexRepr n)

/-! ### Spans and trace records -/

structure SpanContext where
  TraceID : Nat
  SpanID : Nat
  Sampled : Bool

structure RawSpan where
  Context : SpanContext
  ParentSpanID : Nat
  Operation : String
  Start : Int
  Duration : Int
  Tags : Tags
  Logs : List LogRecord

structure TraceSpan where
  SpanId : Nat
  Kind : String
  Name : String
  StartTime : Int
  EndTime : Int
  ParentSpanId : Nat
  Labels : LabelMap

structure Trace where
  ProjectId : String
  TraceId : String
  Spans : List TraceSpan

/-- The `cloudtrace.Trace` literal built in `RecordSpan` for a sampled
span. -/
def buildTrace (project : String) (sp : RawSpan) : Trace :=
  { ProjectId := project
    TraceId := traceID sp.Context.TraceID
    Spans := [{ SpanId := sp.Context.SpanID
                Kind := convertSpanKind sp.Tags
                Name := sp.Operation
                StartTime := sp.Start
                EndTime := sp.Start + sp.Duration
                ParentSpanId := sp.ParentSpanID
                Labels := addLogs (transposeLabels (convertTags sp.Tags))
                            sp.Logs }] }

/-! ### `RecordSpan` control flow -/

/-- Result of `r.bundler.Add`: nil, `bundler.ErrOverflow`, or any other
error. -/
inductive AddResult where
  | ok
  | overflow
  | otherErr (e : String)
  deriving DecidableEq

/-- Observable effects of one `RecordSpan` call: records handed to the
bundler, synchronous upload calls, and logger lines, in order. -/
structure Effects where
  enqueued : List Trace
  uploads : List (List Trace)
  logs : List String

/-- `RecordSpan` from recorder.go.  `addRes` is the bundler's response to
`Add(trace, 2)` and `uploadRes` the Cloud Trace client's response to a
synchronous `upload` (`none` = success, `some e` = error `e`).  The Go
function returns nothing, so the embedding returns only the effects. -/
def RecordSpan (project : String) (sp : RawSpan)
    (addRes : Trace → AddResult)
    (uploadRes : List Trace → Option String) : Effects :=
  if !sp.Context.Sampled then ⟨[], [], []⟩
  else
    let trace := buildTrace project sp
    match addRes trace with
    | .ok => ⟨[trace], [], []⟩
    | .overflow =>
        match uploadRes [trace] with
        | none =>
            ⟨[], [[trace]],
             ["trace upload bundle too full. uploading immediately"]⟩
        | some e =>
            ⟨[], [[trace]],
             ["trace upload bundle too full. uploading immediately",
              "error uploading trace: " ++ e]⟩
    | .otherErr _ => ⟨[], [], []⟩

/-! ### Options and `NewRecorder` -/

structure JWTCredentials where
  Email : String
  PrivateKey : List Nat
  PrivateKeyID : String
  deriving DecidableEq

structure Options where
  log : Option Unit
  projectID : String
  credentials : JWTCredentials

/-- The Go zero value of `Options`. -/
def defaultOptions : Options := ⟨none, "", ⟨"", [], ""⟩⟩

inductive RecErr where
  | invalidProjectID
  | clientErr (e : String)
  deriving DecidableEq

/-- `Options.Valid` from the options file: only the project id is
checked. -/
def Options.Valid (o : Options) : Option RecErr :=
  if o.projectID = "" then some .invalidProjectID else none

abbrev OptionF : Type := Options → Options

def WithProject (pid : String) : OptionF :=
  fun o => { o with projectID := pid }

def WithLogger : OptionF :=
  fun o => { o with log := some () }

def WithJWTCredentials (c : JWTCredentials) : OptionF :=
  fun o => { o with credentials := c }

/-- The options value `NewRecorder` builds by folding its variadic
arguments over the zero value. -/
def foldOpts (opts : List OptionF) : Options :=
  opts.foldl (fun o f => f o) defaultOptions

structure Recorder where
  project : String
  deriving DecidableEq

/-- `NewRecorder` from recorder.go.  `clientRes` is the result of the
external `cloudtrace.New` call (`none` = success); everything after a
successful `Valid` check that the claims concern is the returned
recorder's project. -/
def NewRecorder (opts : List OptionF) (clientRes : Option String) :
    Except RecErr Recorder :=
  let options := foldOpts opts
  match options.Valid with
  | some e => .error e
  | none =>
      match clientRes with
      | some e => .error (.clientErr e)
      | none => .ok { project := options.projectID }

/-! ### Concrete values used by witnesses -/

/-- A concrete unsampled span. -/
def spanOff : RawSpan :=
  { Context := ⟨1, 2, false⟩, ParentSpanID := 0, Operation := "op",
    Start := 0, Duration := 5, Tags := [], Logs := [] }

/-- A concrete sampled span. -/
def spanOn : RawSpan :=
  { Context := ⟨1, 2, true⟩, ParentSpanID := 0, Operation := "op",
    Start := 0, Duration := 5, Tags := [], Logs := [] }

/-! ### Claim theorems: `RecordSpan` control flow -/

/-- C2: for a span whose sampling flag is false, `RecordSpan` is a
complete no-op — no record is emitted or enqueued, no upload happens, no
log line is produced, and (the Go function returning nothing) no error is
returned. -/
theorem RecordSpan_unsampled_noop (project : String) (sp : RawSpan)
    (addRes : Trace → AddResult) (uploadRes : List Trace → Option String)
    (h : sp.Context.Sampled = false) :
    RecordSpan project sp addRes uploadRes = ⟨[], [], []⟩ := by
  simp [RecordSpan, h]

theorem RecordSpan_unsampled_noop_witness :
    RecordSpan "p" spanOff (fun _ => .ok) (fun _ => none) = ⟨[], [], []⟩ :=
  RecordSpan_unsampled_noop "p" spanOff _ _ rfl

/-- C1: when the bundler rejects a sampled span's record with the
overflow error, `RecordSpan` makes exactly one immediate synchronous
upload call whose batch is exactly that one record, enqueues nothing; a
failure of the fallback upload is only logged (the function, which
returns nothing, completes normally either way). -/
theorem RecordSpan_overflow_fallback (project : String) (sp : RawSpan)
    (addRes : Trace → AddResult) (uploadRes : List Trace → Option String)
    (hs : sp.Context.Sampled = true)
    (ho : addRes (buildTrace project sp) = .overflow) :
    (RecordSpan project sp addRes uploadRes).uploads
        = [[buildTrace project sp]] ∧
    (RecordSpan project sp addRes uploadRes).enqueued = [] ∧
    (∀ e, uploadRes [buildTrace project sp] = some e →
      (RecordSpan project sp addRes uploadRes).logs =
        ["trace upload bundle too full. uploading immediately",
         "error uploading trace: " ++ e]) ∧
    (uploadRes [buildTrace project sp] = none →
      (RecordSpan project sp addRes uploadRes).logs =
        ["trace upload bundle too full. uploading immediately"]) := by
  cases hu : uploadRes [buildTrace project sp] with
  | none => simp [RecordSpan, hs, ho, hu]
  | some e => simp [RecordSpan, hs, ho, hu]

theorem RecordSpan_overflow_fallback_witness :
    (RecordSpan "p" spanOn (fun _ => .overflow) (fun _ => some "boom")).uploads
        = [[buildTrace "p" spanOn]] ∧
    (RecordSpan "p" spanOn (fun _ => .overflow)
        (fun _ => some "boom")).enqueued = [] ∧
    (∀ e, (fun _ => some "boom") [buildTrace "p" spanOn] = some e →
      (RecordSpan "p" spanOn (fun _ => .overflow) (fun _ => some "boom")).logs =
        ["trace upload bundle too full. uploading immediately",
         "error uploading trace: " ++ e]) ∧
    ((fun _ => some "boom") [buildTrace "p" spanOn] = none →
      (RecordSpan "p" spanOn (fun _ => .overflow) (fun _ => some "boom")).logs =
        ["trace upload bundle too full. uploading immediately"]) :=
  RecordSpan_overflow_fallback "p" spanOn _ _ rfl rfl

/-- C9: when the bundler rejects a sampled span's record with any error
other than overflow, `RecordSpan` drops the record silently — nothing is
enqueued, no fallback upload is attempted, and nothing is logged. -/
theorem RecordSpan_other_error_silent (project : String) (sp : RawSpan)
    (addRes : Trace → AddResult) (uploadRes : List Trace → Option String)
    (e : String) (hs : sp.Context.Sampled = true)
    (ho : addRes (buildTrace project sp) = .otherErr e) :
    RecordSpan project sp addRes uploadRes = ⟨[], [], []⟩ := by
  simp [RecordSpan, hs, ho]

theorem RecordSpan_other_error_silent_witness :
    RecordSpan "p" spanOn (fun _ => .otherErr "oversized item")
        (fun _ => none) = ⟨[], [], []⟩ :=
  RecordSpan_other_error_silent "p" spanOn _ _ "oversized item" rfl rfl

/-! ### Claim theorems: construction-time validation -/

/-- C4 counterexample: with a non-empty project id and entirely missing
service-account credentials (empty email, key and key id — the Go zero
value), construction still succeeds, so the credentials are not validated
at construction, contrary to the claim. -/
theorem NewRecorder_missing_credentials_ok :
    (foldOpts [WithProject "p"]).credentials = ⟨"", [], ""⟩ ∧
    NewRecorder [WithProject "p"] none = .ok ⟨"p"⟩ :=
  ⟨rfl, rfl⟩

/-- C4 (amended): `NewRecorder` validates eagerly only the project
identifier — it returns the invalid-project-id configuration error and no
recorder exactly when the project id is empty; the service-account
credentials are not validated at construction (with any credentials, a
non-empty project id and a successful client build yield a recorder). -/
theorem NewRecorder_validates_only_projectID (opts : List OptionF)
    (clientRes : Option String) :
    (NewRecorder opts clientRes = .error .invalidProjectID ↔
      (foldOpts opts).projectID = "") ∧
    ((foldOpts opts).projectID ≠ "" →
      NewRecorder opts none = .ok ⟨(foldOpts opts).projectID⟩) := by
  by_cases h : (foldOpts opts).projectID = "" <;>
    cases clientRes <;> simp [NewRecorder, Options.Valid, h]

theorem NewRecorder_validates_only_projectID_witness :
    NewRecorder [WithProject "p"] none = .ok ⟨"p"⟩ :=
  (NewRecorder_validates_only_projectID [WithProject "p"] none).2 (by decide)

/-! ### Claim theorems: tag conversion -/

theorem convertFold_not_mem (tags : Tags) (m : LabelMap) (k : String)
    (h : k ∉ tags.map Prod.fst) :
    tags.foldl convertStep m k = m k := by
  induction tags generalizing m with
  | nil => rfl
  | cons p rest ih =>
      simp only [List.map_cons, List.mem_cons, not_or] at h
      rw [List.foldl_cons, ih _ h.2]
      cases hv : p.2 <;> simp [convertStep, mapInsert, hv, h.1]

theorem convertFold_mem (tags : Tags) (m : LabelMap) (k : String)
    (v : TagValue) (hnd : (tags.map Prod.fst).Nodup) (hmem : (k, v) ∈ tags) :
    tags.foldl convertStep m k =
      match v with
      | .int n => some (toString n)
      | .str s => some s
      | _ => m k := by
  induction tags generalizing m with
  | nil => cases hmem
  | cons p rest ih =>
      rw [List.foldl_cons]
      simp only [List.map_cons, List.nodup_cons] at hnd
      rcases List.mem_cons.1 hmem with heq | hmem'
      · subst heq
        rw [convertFold_not_mem rest _ k hnd.1]
        cases v <;> simp [convertStep, mapInsert]
      · have hk : p.1 ≠ k := by
          intro hkk
          exact hnd.1 (hkk ▸ List.mem_map_of_mem Prod.fst hmem')
        have hstep : convertStep m p k = m k := by
          cases hv : p.2 <;> simp [convertStep, mapInsert, hv, Ne.symm hk]
        rw [ih (convertStep m p) hnd.2 hmem']
        cases v <;> simp [hstep]

/-- C5: `convertTags` passes string-valued tags through unchanged under
their keys, renders integer-valued tags as base-10 text, and silently
omits tags of any other dynamic type (no error is possible — the
embedding is a total function). -/
theorem convertTags_correct (tags : Tags)
    (hnd : (tags.map Prod.fst).Nodup) :
    (∀ k s, (k, TagValue.str s) ∈ tags → convertTags tags k = some s) ∧
    (∀ k n, (k, TagValue.int n) ∈ tags →
      convertTags tags k = some (toString n)) ∧
    (∀ k v, (k, v) ∈ tags → (∀ s, v ≠ TagValue.str s) →
      (∀ n, v ≠ TagValue.int n) → convertTags tags k = none) := by
  refine ⟨?_, ?_, ?_⟩
  · intro k s hm
    exact convertFold_mem tags mapEmpty k _ hnd hm
  · intro k n hm
    exact convertFold_mem tags mapEmpty k _ hnd hm
  · intro k v hm hs hn
    have h := convertFold_mem tags mapEmpty k v hnd hm
    cases v with
    | str s => exact absurd rfl (hs s)
    | int n => exact absurd rfl (hn n)
    | spanKind s => exact h
    | other => exact h

theorem convertTags_correct_witness :
    (([("a", TagValue.str "x"), ("b", TagValue.int (-3)),
       ("c", TagValue.other)] : Tags).map Prod.fst).Nodup ∧
    convertTags [("a", TagValue.str "x"), ("b", TagValue.int (-3)),
       ("c", TagValue.other)] "a" = some "x" ∧
    convertTags [("a", TagValue.str "x"), ("b", TagValue.int (-3)),
       ("c", TagValue.other)] "b" = some (toString (-3 : Int)) ∧
    convertTags [("a", TagValue.str "x"), ("b", TagValue.int (-3)),
       ("c", TagValue.other)] "c" = none := by
  refine ⟨by decide, ?_, ?_, ?_⟩
  · exact (convertTags_correct _ (by decide)).1 "a" "x" (by decide)
  · exact (convertTags_correct _ (by decide)).2.1 "b" (-3) (by decide)
  · exact (convertTags_correct _ (by decide)).2.2 "c" TagValue.other
      (by decide) (fun s => by simp) (fun n => by simp)

/-! ### Claim theorems: semantic label rewrite -/

theorem transposeStep_apply (m : LabelMap) (e : String × String)
    (q : String) :
    transposeStep m e q =
      match m e.1 with
      | some vv => if q = e.1 then none else if q = e.2 then some vv else m q
      | none => m q := by
  unfold transposeStep
  cases m e.1 <;> simp [mapErase, mapInsert]

theorem transposeStep_preserve (m : LabelMap) (e : String × String)
    (q : String) (h1 : q ≠ e.1) (h2 : q ≠ e.2) :
    transposeStep m e q = m q := by
  rw [transposeStep_apply]
  cases m e.1 <;> simp [h1, h2]

theorem transposeStep_set (m : LabelMap) (e : String × String) (vv : String)
    (hv : m e.1 = some vv) (hne : e.1 ≠ e.2) :
    transposeStep m e e.2 = some vv ∧ transposeStep m e e.1 = none := by
  rw [transposeStep_apply, transposeStep_apply, hv]
  exact ⟨by simp [Ne.symm hne], by simp⟩

theorem transposeFold_preserve (tbl : List (String × String))
    (m : LabelMap) (q : String) (h : ∀ e ∈ tbl, q ≠ e.1 ∧ q ≠ e.2) :
    tbl.foldl transposeStep m q = m q := by
  induction tbl generalizing m with
  | nil => rfl
  | cons e rest ih =>
      rw [List.foldl_cons, ih _ fun f hf => h f (List.mem_cons_of_mem e hf)]
      exact transposeStep_preserve m e q (h e (List.mem_cons_self e rest)).1
        (h e (List.mem_cons_self e rest)).2

theorem transposeFold_rewrites (tbl : List (String × String))
    (m : LabelMap) (k t vv : String) (he : (k, t) ∈ tbl)
    (hv : m k = some vv)
    (hdisj : ∀ e ∈ tbl, e.1 ≠ e.2)
    (hsrc : (tbl.map Prod.fst).Nodup)
    (hdst : (tbl.map Prod.snd).Nodup)
    (hcross : ∀ e ∈ tbl, ∀ f ∈ tbl, e.1 ≠ f.2) :
    tbl.foldl transposeStep m t = some vv ∧
    tbl.foldl transposeStep m k = none := by
  induction tbl generalizing m with
  | nil => cases he
  | cons e rest ih =>
      simp only [List.map_cons, List.nodup_cons] at hsrc hdst
      rcases List.mem_cons.1 he with heq | he'
      · subst heq
        have hkt : k ≠ t := hdisj (k, t) (List.mem_cons_self _ rest)
        have hset := transposeStep_set m (k, t) vv hv hkt
        have hsrc1 : k ∉ List.map Prod.fst rest := hsrc.1
        have hdst1 : t ∉ List.map Prod.snd rest := hdst.1
        have hcr1 : ∀ f ∈ rest, f.1 ≠ t := fun f hf =>
          hcross f (List.mem_cons_of_mem _ hf) (k, t)
            (List.mem_cons_self _ rest)
        have hcr2 : ∀ f ∈ rest, k ≠ f.2 := fun f hf =>
          hcross (k, t) (List.mem_cons_self _ rest) f
            (List.mem_cons_of_mem _ hf)
        have hprest : ∀ f ∈ rest, t ≠ f.1 ∧ t ≠ f.2 := fun f hf =>
          ⟨fun hh => hcr1 f hf hh.symm,
           fun hh => hdst1 (by rw [hh]; exact List.mem_map_of_mem Prod.snd hf)⟩
        have hpresk : ∀ f ∈ rest, k ≠ f.1 ∧ k ≠ f.2 := fun f hf =>
          ⟨fun hh => hsrc1 (by rw [hh]; exact List.mem_map_of_mem Prod.fst hf),
           fun hh => hcr2 f hf hh⟩
        rw [List.foldl_cons, transposeFold_preserve rest _ t hprest,
          transposeFold_preserve rest _ k hpresk]
        exact ⟨hset.1, hset.2⟩
      · have hke : k ≠ e.1 := by
          intro hh
          exact hsrc.1 (hh ▸ List.mem_map_of_mem Prod.fst he')
        have hke2 : k ≠ e.2 := by
          intro hh
          exact hcross (k, t) (List.mem_cons_of_mem _ he')
            e (List.mem_cons_self _ rest) hh
        rw [List.foldl_cons]
        refine ih _ he' ?_ (fun f hf => hdisj f (List.mem_cons_of_mem _ hf))
          hsrc.2 hdst.2
          (fun f hf g hg => hcross f (List.mem_cons_of_mem _ hf)
            g (List.mem_cons_of_mem _ hg))
        rw [transposeStep_preserve m e k hke hke2]
        exact hv

/-- C6: after the semantic label rewrite, every rewrite-table entry whose
well-known key was present in the label set has its value stored under the
destination-schema key, and the original well-known key is gone. -/
theorem transposeLabels_rewrite (m : LabelMap) (k t vv : String)
    (he : (k, t) ∈ labelMapL) (hv : m k = some vv) :
    transposeLabels m t = some vv ∧ transposeLabels m k = none :=
  transposeFold_rewrites labelMapL m k t vv he hv
    (by decide) (by decide) (by decide) (by decide)

theorem transposeLabels_rewrite_witness :
    transposeLabels (convertTags
        [("peer.hostname", TagValue.str "a"), ("custom", TagValue.str "b")])
        "trace.cloud.google.com/http/host" = some "a" ∧
    transposeLabels (convertTags
        [("peer.hostname", TagValue.str "a"), ("custom", TagValue.str "b")])
        "peer.hostname" = none ∧
    transposeLabels (convertTags
        [("peer.hostname", TagValue.str "a"), ("custom", TagValue.str "b")])
        "custom" = some "b" :=
  ⟨(transposeLabels_rewrite _ "peer.hostname"
      "trace.cloud.google.com/http/host" "a" (by decide) (by decide)).1,
   (transposeLabels_rewrite _ "peer.hostname"
      "trace.cloud.google.com/http/host" "a" (by decide) (by decide)).2,
   by decide⟩

theorem transposeStep_comm (e f : String × String)
    (h11 : e.1 ≠ f.1) (h22 : e.2 ≠ f.2) (h12 : e.1 ≠ f.2) (h21 : f.1 ≠ e.2)
    (m : LabelMap) :
    transposeStep (transposeStep m e) f
      = transposeStep (transposeStep m f) e := by
  have hfe : transposeStep m e f.1 = m f.1 :=
    transposeStep_preserve m e f.1 (Ne.symm h11) h21
  have hef : transposeStep m f e.1 = m e.1 :=
    transposeStep_preserve m f e.1 h11 h12
  funext q
  rw [transposeStep_apply (transposeStep m e) f,
    transposeStep_apply (transposeStep m f) e, hfe, hef]
  cases hme : m e.1 <;> cases hmf : m f.1 <;>
    simp only [transposeStep_apply, hme, hmf] <;>
    by_cases hq1 : q = e.1 <;> by_cases hq2 : q = f.1 <;>
    by_cases hq3 : q = e.2 <;> by_cases hq4 : q = f.2 <;>
    simp_all

/-- C7: the result of the semantic label rewrite does not depend on the
order in which the rewrite-table entries are processed: folding the
transpose step over any two orderings of `labelMapL` yields the same
final label set, for every input label set. -/
theorem transposeLabels_order_independent (l₁ l₂ : List (String × String))
    (h₁ : l₁.Perm labelMapL) (h₂ : l₂.Perm labelMapL) (m : LabelMap) :
    l₁.foldl transposeStep m = l₂.foldl transposeStep m := by
  refine (h₁.trans h₂.symm).foldl_eq' ?_ m
  intro x hx y hy z
  have hx' : x ∈ labelMapL := h₁.mem_iff.1 hx
  have hy' : y ∈ labelMapL := h₁.mem_iff.1 hy
  fin_cases hx' <;> fin_cases hy' <;>
    first
      | rfl
      | (apply transposeStep_comm <;> decide)

theorem transposeLabels_order_independent_witness :
    ([("http.method", "trace.cloud.google.com/http/method"),
      ("peer.hostname", "trace.cloud.google.com/http/host"),
      ("http.url", "trace.cloud.google.com/http/url"),
      ("http.status_code", "trace.cloud.google.com/http/status_code")]).foldl
        transposeStep (mapInsert mapEmpty "peer.hostname" "a")
      = labelMapL.foldl transposeStep
          (mapInsert mapEmpty "peer.hostname" "a") :=
  transposeLabels_order_independent _ labelMapL (by decide) (by decide) _

/-! ### Claim theorems: trace id -/

theorem hexChars_zero : hexChars 0 = [] := by
  rw [hexChars]
  simp

theorem hexChars_succ (n : Nat) (h : n ≠ 0) :
    hexChars n = hexChars (n / 16) ++ [hexDigitChar (n % 16)] := by
  conv_lhs => rw [hexChars]
  simp [h]

theorem hexChars_length_le (k : Nat) : ∀ n, n < 16 ^ k →
    (hexChars n).length ≤ k := by
  induction k with
  | zero =>
      intro n hn
      interval_cases n
      simp [hexChars_zero]
  | succ k ih =>
      intro n hn
      by_cases h0 : n = 0
      · simp [h0, hexChars_zero]
      · rw [hexChars_succ n h0]
        have hdiv : n / 16 < 16 ^ k := by
          rw [Nat.div_lt_iff_lt_mul (by omega)]
          calc n < 16 ^ (k + 1) := hn
            _ = 16 ^ k * 16 := by ring
        have := ih (n / 16) hdiv
        simp [List.length_append]
        omega

theorem hexDigitChar_mem : ∀ d < 16,
    hexDigitChar d ∈ "0123456789abcdef".data := by decide

theorem hexChars_chars (n : Nat) :
    ∀ c ∈ hexChars n, c ∈ "0123456789abcdef".data := by
  induction n using Nat.strong_induction_on with
  | _ n ih =>
      intro c hc
      by_cases h0 : n = 0
      · rw [h0, hexChars_zero] at hc
        cases hc
      · rw [hexChars_succ n h0] at hc
        rcases List.mem_append.1 hc with hc' | hc'
        · exact ih (n / 16) (Nat.div_lt_self (Nat.pos_of_ne_zero h0)
            (by decide)) c hc'
        · rw [List.mem_singleton.1 hc']
          exact hexDigitChar_mem (n % 16) (Nat.mod_lt n (by decide))

theorem hexRepr_length_le (n : Nat) (h : n < 2 ^ 64) :
    (hexRepr n).length ≤ 16 := by
  unfold hexRepr
  by_cases h0 : n = 0
  · simp [h0]
    decide
  · rw [if_neg h0]
    show (hexChars n).length ≤ 16
    exact hexChars_length_le 16 n (by norm_num at h ⊢; omega)

theorem hexRepr_chars (n : Nat) :
    ∀ c ∈ (hexRepr n).data, c ∈ "0123456789abcdef".data := by
  unfold hexRepr
  by_cases h0 : n = 0
  · intro c hc
    simp [h0] at hc
    simp [hc]
  · rw [if_neg h0]
    exact hexChars_chars n

theorem pad016_length (s : String) (h : s.length ≤ 16) :
    (pad016 s).length = 16 := by
  show (List.replicate (16 - s.length) '0' ++ s.data).length = 16
  rw [List.length_append, List.length_replicate]
  have : s.data.length = s.length := rfl
  omega

theorem pad016_chars (s : String)
    (h : ∀ c ∈ s.data, c ∈ "0123456789abcdef".data) :
    ∀ c ∈ (pad016 s).data, c ∈ "0123456789abcdef".data := by
  intro c hc
  rcases List.mem_append.1 hc with hc' | hc'
  · rw [List.eq_of_mem_replicate hc']
    decide
  · exact h c hc'

/-- C8: for every 64-bit trace identifier, the trace id written into the
record is the zero-padded 16-character lowercase-hexadecimal rendering of
the identifier concatenated with itself: each half is 16 characters, the
whole id is a 32-character string, and every character is a lowercase hex
digit. -/
theorem traceID_spec (n : Nat) (h : n < 2 ^ 64) :
    traceID n = pad016 (hexRepr n) ++ pad016 (hexRepr n) ∧
    (pad016 (hexRepr n)).length = 16 ∧
    (traceID n).length = 32 ∧
    ∀ c ∈ (traceID n).data, c ∈ "0123456789abcdef".data := by
  have hlen := pad016_length (hexRepr n) (hexRepr_length_le n h)
  refine ⟨rfl, hlen, ?_, ?_⟩
  · show (pad016 (hexRepr n) ++ pad016 (hexRepr n)).length = 32
    rw [String.length_append]
    omega
  · intro c hc
    have hd : (pad016 (hexRepr n) ++ pad016 (hexRepr n)).data
        = (pad016 (hexRepr n)).data ++ (pad016 (hexRepr n)).data := rfl
    rw [show (traceID n).data
        = (pad016 (hexRepr n)).data ++ (pad016 (hexRepr n)).data from rfl]
      at hc
    rcases List.mem_append.1 hc with hc' | hc' <;>
      exact pad016_chars (hexRepr n) (hexRepr_chars n) c hc'

theorem traceID_spec_witness :
    traceID 255 = pad016 (hexRepr 255) ++ pad016 (hexRepr 255) ∧
    (pad016 (hexRepr 255)).length = 16 ∧
    (traceID 255).length = 32 ∧
    ∀ c ∈ (traceID 255).data, c ∈ "0123456789abcdef".data :=
  traceID_spec 255 (by norm_num)

/-! ### Decimal rendering: injectivity of the numeral inside `event_<i>` -/

/-- Decimal digits of `n`, most significant first (the unfueled form of
core's `Nat.toDigitsCore`). -/
def decChars (n : Nat) : List Char :=
  if n < 10 then [Nat.digitChar n]
  else decChars (n / 10) ++ [Nat.digitChar (n % 10)]
termination_by n
decreasing_by exact Nat.div_lt_self (by omega) (by decide)

theorem decChars_lt (n : Nat) (h : n < 10) :
    decChars n = [Nat.digitChar n] := by
  rw [decChars]
  simp [h]

theorem decChars_ge (n : Nat) (h : ¬ n < 10) :
    decChars n = decChars (n / 10) ++ [Nat.digitChar (n % 10)] := by
  conv_lhs => rw [decChars]
  simp [h]

theorem toDigitsCore_eq_decChars (fuel : Nat) : ∀ n ds, n < fuel →
    Nat.toDigitsCore 10 fuel n ds = decChars n ++ ds := by
  induction fuel with
  | zero => intro n ds h; omega
  | succ f ih =>
      intro n ds h
      rw [Nat.toDigitsCore]
      by_cases h10 : n < 10
      · have hz : n / 10 = 0 := Nat.div_eq_of_lt h10
        simp [hz, Nat.mod_eq_of_lt h10, decChars_lt n h10]
      · have h1 : 1 ≤ n / 10 :=
          (Nat.le_div_iff_mul_le (by decide)).mpr (by omega)
        have hlt : n / 10 < n := Nat.div_lt_self (by omega) (by decide)
        simp only [show ¬ n / 10 = 0 by omega, if_false]
        rw [ih (n / 10) _ (by omega), decChars_ge n h10]
        simp

/-- Base-10 value of a digit string. -/
def decVal (l : List Char) : Nat :=
  l.foldl (fun a c => a * 10 + (c.toNat - 48)) 0

theorem digitChar_toNat : ∀ d < 10, (Nat.digitChar d).toNat = 48 + d := by
  decide

theorem decVal_decChars (n : Nat) : decVal (decChars n) = n := by
  induction n using Nat.strong_induction_on with
  | _ n ih =>
      by_cases h10 : n < 10
      · rw [decChars_lt n h10]
        unfold decVal
        rw [List.foldl_cons, List.foldl_nil, digitChar_toNat n h10]
        omega
      · rw [decChars_ge n h10]
        unfold decVal
        rw [List.foldl_append, List.foldl_cons, List.foldl_nil]
        have ihv := ih (n / 10) (Nat.div_lt_self (by omega) (by decide))
        unfold decVal at ihv
        rw [ihv, digitChar_toNat (n % 10) (Nat.mod_lt n (by decide))]
        have := Nat.div_add_mod n 10
        omega

theorem decChars_inj (a b : Nat) (h : decChars a = decChars b) : a = b := by
  have ha := decVal_decChars a
  rw [h, decVal_decChars b] at ha
  omega

theorem natRepr_eq_decChars (n : Nat) :
    Nat.repr n = String.mk (decChars n) := by
  show (Nat.toDigits 10 n).asString = _
  unfold Nat.toDigits
  rw [toDigitsCore_eq_decChars (n + 1) n [] (Nat.lt_succ_self n)]
  simp [List.asString]

theorem eventKey_inj (i j : Nat) (h : eventKey i = eventKey j) : i = j := by
  have h2 : "event_".data ++ (Nat.repr i).data
      = "event_".data ++ (Nat.repr j).data := by
    have hd := congrArg String.data h
    simpa [eventKey, toString, String.data_append] using hd
  have h3 : (Nat.repr i).data = (Nat.repr j).data :=
    List.append_cancel_left h2
  rw [natRepr_eq_decChars, natRepr_eq_decChars] at h3
  exact decChars_inj i j h3

/-! ### `addLogs` lookup lemmas -/

theorem addLogsFold_preserve (logs : List LogRecord) (n : Nat)
    (m : LabelMap) (q : String) (h : ∀ j, n ≤ j → q ≠ eventKey j) :
    (List.enumFrom n logs).foldl addLogStep m q = m q := by
  induction logs generalizing n m with
  | nil => rfl
  | cons l rest ih =>
      show (List.enumFrom (n + 1) rest).foldl addLogStep
        (addLogStep m (n, l)) q = m q
      rw [ih (n + 1) _ fun j hj => h j (by omega)]
      simp [addLogStep, mapInsert, h n le_rfl]

theorem addLogsFold_get (logs : List LogRecord) :
    ∀ (n : Nat) (m : LabelMap) (i : Nat) (h : i < logs.length),
    (List.enumFrom n logs).foldl addLogStep m (eventKey (n + i))
      = some (flattenLog (logs.get ⟨i, h⟩)) := by
  induction logs with
  | nil => intro n m i h; simp at h
  | cons l rest ih =>
      intro n m i h
      match i with
      | 0 =>
          have hpres : ∀ j, n + 1 ≤ j → eventKey (n + 0) ≠ eventKey j := by
            intro j hj heq
            have := eventKey_inj _ _ heq
            omega
          show (List.enumFrom (n + 1) rest).foldl addLogStep
            (addLogStep m (n, l)) (eventKey (n + 0)) = some (flattenLog l)
          rw [addLogsFold_preserve rest (n + 1) _ _ hpres]
          simp [addLogStep, mapInsert]
      | i' + 1 =>
          show (List.enumFrom (n + 1) rest).foldl addLogStep
            (addLogStep m (n, l)) (eventKey (n + (i' + 1)))
            = some (flattenLog (rest.get ⟨i', by simpa using h⟩))
          rw [show n + (i' + 1) = (n + 1) + i' by omega]
          exact ih (n + 1) _ i' (by simpa using h)

/-! ### Flattening: the separator condition never fails -/

/-- The value the amended claim describes: every field rendered as
`key=value` with a single space after it, the final field included. -/
def fieldsConcatTrailing : List (String × String) → String
  | [] => ""
  | f :: rest => f.1 ++ "=" ++ f.2 ++ " " ++ fieldsConcatTrailing rest

theorem flattenFold (L : Nat) (fields : List (String × String)) :
    ∀ (n : Nat) (buf : String), n + fields.length ≤ L + 1 →
    (List.enumFrom n fields).foldl (flattenStep L) buf
      = buf ++ fieldsConcatTrailing fields := by
  induction fields with
  | nil =>
      intro n buf _
      show buf = buf ++ fieldsConcatTrailing []
      simp [fieldsConcatTrailing]
  | cons f rest ih =>
      intro n buf h
      simp only [List.length_cons] at h
      show (List.enumFrom (n + 1) rest).foldl (flattenStep L)
        (flattenStep L buf (n, f)) = buf ++ fieldsConcatTrailing (f :: rest)
      rw [ih (n + 1) _ (by omega)]
      have hn : n ≠ L + 1 := by omega
      simp [flattenStep, hn, fieldsConcatTrailing, String.append_assoc]

theorem flattenLog_eq (l : LogRecord) :
    flattenLog l = l.timestamp ++ fieldsConcatTrailing l.fields := by
  show (List.enumFrom 0 l.fields).foldl (flattenStep l.fields.length)
    l.timestamp = _
  exact flattenFold l.fields.length l.fields 0 l.timestamp (by omega)

/-! ### Claim theorems: log flattening -/

/-- C3 counterexample: for a single log event with timestamp string `"T"`
and one field `k=v`, the synthesized `event_0` value is `"Tk=v "` — with
a separator space after the final (only) field — and not `"Tk=v"` as the
claim's "no separator after the final field" predicts: the source's
condition `j != len(l.Fields)+1` never fails. -/
theorem addLogs_trailing_space_cex :
    addLogs mapEmpty [⟨"T", [("k", "v")]⟩] (eventKey 0) = some "Tk=v " ∧
    addLogs mapEmpty [⟨"T", [("k", "v")]⟩] (eventKey 0)
      ≠ some ("T" ++ "k=v") := by
  constructor <;> decide

/-- C3 (amended): log flattening adds, for the log event at 0-based index
`i` in emission order, a label whose key is `event_<i>` and whose value is
the event timestamp's string form followed by each field rendered as
`key=value` with a single space appended after every field, including the
final one. -/
theorem addLogs_event_label (target : LabelMap) (logs : List LogRecord)
    (i : Nat) (h : i < logs.length) :
    addLogs target logs (eventKey i)
      = some ((logs.get ⟨i, h⟩).timestamp
          ++ fieldsConcatTrailing (logs.get ⟨i, h⟩).fields) := by
  have hg := addLogsFold_get logs 0 target i h
  rw [flattenLog_eq] at hg
  simpa [addLogs, List.enum] using hg

theorem addLogs_event_label_witness :
    addLogs mapEmpty [⟨"T", [("k", "v"), ("a", "b")]⟩] (eventKey 0)
      = some ((⟨"T", [("k", "v"), ("a", "b")]⟩ : LogRecord).timestamp
          ++ fieldsConcatTrailing [("k", "v"), ("a", "b")]) :=
  addLogs_event_label mapEmpty [⟨"T", [("k", "v"), ("a", "b")]⟩] 0
    (by decide)

/-- C10: log-derived labels take precedence over tag-derived labels with
the same key: even when the label set built from the span's tags
(conversion then semantic rewrite) already contains a value under
`event_<i>` for a valid log index `i`, applying `addLogs` afterwards — as
`RecordSpan` does — maps that key to the flattened log event instead. -/
theorem addLogs_overrides_tag_labels (tags : Tags) (logs : List LogRecord)
    (i : Nat) (h : i < logs.length) (v : String)
    (_hv : transposeLabels (convertTags tags) (eventKey i) = some v) :
    addLogs (transposeLabels (convertTags tags)) logs (eventKey i)
      = some (flattenLog (logs.get ⟨i, h⟩)) := by
  have hg := addLogsFold_get logs 0 (transposeLabels (convertTags tags)) i h
  simpa [addLogs, List.enum] using hg

theorem addLogs_overrides_tag_labels_witness :
    addLogs (transposeLabels (convertTags [("event_0", TagValue.str "x")]))
        [⟨"T", []⟩] (eventKey 0) = some (flattenLog ⟨"T", []⟩) :=
  addLogs_overrides_tag_labels [("event_0", TagValue.str "x")]
    [⟨"T", []⟩] 0 (by decide) "x" (by decide)

end GCloudTracer
